import Mathlib

/-!
Shallow embedding of `rollback.py` (class `Rollback`): a registry of
compensating actions with LIFO drain (`do_rollback`), step management
(`add_step`, `clear_steps`), and the context-manager exit policy
(`_handle_exit`, `_frames`, `_method_in_traceback`, `__aexit__`).

Steps are modelled as entries carrying a callback identifier together with
the positional and keyword arguments captured at registration time.
Whether invoking a given step raises is supplied by an environment
`raises : StepEntry → Bool`.  Tracebacks are modelled as lists of frames,
each frame recording the object bound to the local `self` (if any) and the
code object name (`f_code.co_name`).
-/

/-- A registered rollback step: the tuple `(callback, args, kwargs)`
appended by `add_step`.  The callback is identified by a number; arguments
are the values captured at the `add_step` call. -/
structure StepEntry where
  cb : Nat
  args : List Int
  kwargs : List (String × Int)
deriving DecidableEq, Repr

/-- The mutable state of a `Rollback` instance that the step operations
touch: the ordered list `self.steps`. -/
structure RollbackState where
  steps : List StepEntry
deriving DecidableEq, Repr

/-- `add_step(callback, *args, **kwargs)`: `self.steps.append((callback, args, kwargs))`. -/
def add_step (r : RollbackState) (cb : Nat) (args : List Int)
    (kwargs : List (String × Int)) : RollbackState :=
  { r with steps := r.steps ++ [⟨cb, args, kwargs⟩] }

/-- `clear_steps()`: `self.steps.clear()`. -/
def clear_steps (r : RollbackState) : RollbackState :=
  { r with steps := [] }

/-- The drain loop of `do_rollback`, acting on the step list already
reversed so that the head is the tail-most (next-popped) element.  Returns
`(invoked in order, remaining entries still in reversed order, errored)`.
Generic in the entry type so the same loop serves tagged entries. -/
def drainRev {α : Type} (raises : α → Bool) : List α → List α × List α × Bool
  | [] => ([], [], false)
  | a :: rest =>
    if raises a then ([a], rest, true)
    else
      let r := drainRev raises rest
      (a :: r.1, r.2.1, r.2.2)

/-- `do_rollback()`: `while self.steps: callback, args, kwargs = self.steps.pop(); callback(*args, **kwargs)`.
Each iteration pops the tail-most entry and invokes it; a raising step
escapes at once.  Returns the invocation trace (entries in the order they
were invoked, each carrying its captured arguments), the final state, and
whether a step raised. -/
def do_rollback (raises : StepEntry → Bool) (r : RollbackState) :
    List StepEntry × RollbackState × Bool :=
  let d := drainRev raises r.steps.reverse
  (d.1, ⟨d.2.1.reverse⟩, d.2.2)

/-- A traceback frame: the object bound to the frame local `self` (as an
instance identifier, if the local exists) and `f_code.co_name`. -/
structure Frame where
  selfLocal : Option Nat
  coName : String
deriving DecidableEq, Repr

/-- A traceback object: the chain of `tb_frame`s reached by following
`tb_next`, outermost first. -/
def Traceback := List Frame

/-- `_frames(traceback)`: `frame = traceback; while frame.tb_next: frame = frame.tb_next; yield frame.tb_frame`.
The loop advances before yielding, so the first frame of the chain is not
produced. -/
def frames_of : Traceback → List Frame
  | [] => []
  | _ :: rest => rest

/-- The per-frame test of `_method_in_traceback`:
`frame.f_locals.get("self") is self and frame.f_code.co_name == name`. -/
def frame_matches (selfId : Nat) (name : String) (f : Frame) : Bool :=
  f.selfLocal == some selfId && f.coName == name

/-- `_method_in_traceback(name, traceback)`: scans `_frames(traceback)`
for a frame whose local `self` is this instance and whose code name is
`name`. -/
def method_in_traceback (selfId : Nat) (name : String) (tb : Traceback) : Bool :=
  (frames_of tb).any (frame_matches selfId name)

/-- The policy configuration stored by `__init__`. -/
structure RollbackCfg where
  on_error : Bool
  on_success : Bool
  raise_error : Bool
deriving DecidableEq, Repr

/-- How `_handle_exit` triggered rollback: not at all, scheduled as a
fire-and-forget task via `asyncio.create_task` (event loop running), or
run to completion via `asyncio.run` (no loop running). -/
inductive RollbackAction where
  | nothing
  | createTask
  | runSync
deriving DecidableEq, Repr

/-- The observable outcome of `_handle_exit`: which rollback scheduling
happened and the returned suppression decision. -/
structure ExitResult where
  action : RollbackAction
  suppress : Bool
deriving DecidableEq, Repr

/-- Line 71 of the source: `error = bool(traceback is not None)`.  The
error flag is computed from the traceback argument alone. -/
def had_error (traceback : Option Traceback) : Bool :=
  traceback.isSome

/-- `_handle_exit(exception_type, exception_value, traceback)`:
computes the error flag from the traceback, triggers rollback when
`(error and on_error) or (on_success and not error)` (as a task when the
event loop is running, else synchronously), and when an error is present
and suppression is configured, overrides suppression if this instance's
`do_rollback` is found in the traceback. -/
def handle_exit (cfg : RollbackCfg) (selfId : Nat) (loopRunning : Bool)
    (exception_type exception_value : Option Nat)
    (traceback : Option Traceback) : ExitResult :=
  let error := had_error traceback
  let suppress0 := !cfg.raise_error
  let action :=
    if error && cfg.on_error || cfg.on_success && !error then
      if loopRunning then RollbackAction.createTask else RollbackAction.runSync
    else RollbackAction.nothing
  let suppress :=
    if error && suppress0 then
      !(method_in_traceback selfId "do_rollback" (traceback.getD []))
    else suppress0
  ⟨action, suppress⟩

/-- In the source, `_handle_exit` is declared with `def`, not `async def`,
so calling it yields a plain `bool`, not an awaitable. -/
def handle_exit_is_coroutine : Bool := false

/-- `__aexit__(exception_type, exception_value, traceback)`:
`return await self._handle_exit(...)`.  The call runs inside the event
loop (so `loopRunning = true`); the subsequent `await` of its result
succeeds only if that result is awaitable, otherwise it raises
`TypeError`. -/
def aexit (cfg : RollbackCfg) (selfId : Nat)
    (exception_type exception_value : Option Nat)
    (traceback : Option Traceback) : Except String ExitResult :=
  let r := handle_exit cfg selfId true exception_type exception_value traceback
  if handle_exit_is_coroutine then Except.ok r
  else Except.error "TypeError: object bool cannot be used in await expression"

/-- One call in a client session against a single `Rollback` instance. -/
inductive Op where
  | add (e : StepEntry)
  | clear
  | rollback
deriving DecidableEq, Repr

/-- State of a session: the pending steps, each tagged with the serial
number of the `add_step` call that registered it, a counter of
registrations so far, and the accumulated invocation log of every
`do_rollback` performed. -/
structure RunState where
  steps : List (Nat × StepEntry)
  next : Nat
  log : List (Nat × StepEntry)
deriving DecidableEq, Repr

/-- Execute one call on the session state. -/
def runOp (raises : StepEntry → Bool) (s : RunState) : Op → RunState
  | Op.add e => { s with steps := s.steps ++ [(s.next, e)], next := s.next + 1 }
  | Op.clear => { s with steps := [] }
  | Op.rollback =>
    let d := drainRev (fun te => raises te.2) s.steps.reverse
    { s with steps := d.2.1.reverse, log := s.log ++ d.1 }

/-- Execute a session from a fresh instance. -/
def runOps (raises : StepEntry → Bool) (ops : List Op) : RunState :=
  ops.foldl (runOp raises) ⟨[], 0, []⟩

/-- Registration tags present in the session state, pending or logged. -/
def tagsOf (s : RunState) : List Nat :=
  s.log.map Prod.fst ++ s.steps.map Prod.fst

/-- An environment in which exactly the steps whose callback identifier is
1 raise when invoked; used for concrete instances. -/
def raises1 (e : StepEntry) : Bool :=
  e.cb == 1

theorem drainRev_no_raise {α : Type} (raises : α → Bool) (l : List α)
    (h : ∀ e ∈ l, raises e = false) : drainRev raises l = (l, [], false) := by
  induction l with
  | nil => rfl
  | cons a rest ih =>
    have ha : raises a = false := h a (by simp)
    have hrest : ∀ e ∈ rest, raises e = false := fun e he => h e (by simp [he])
    simp [drainRev, ha, ih hrest]

theorem drainRev_append_no_raise {α : Type} (raises : α → Bool)
    (l1 l2 : List α) (h : ∀ e ∈ l1, raises e = false) :
    drainRev raises (l1 ++ l2) =
      ((l1 ++ (drainRev raises l2).1, (drainRev raises l2).2.1,
        (drainRev raises l2).2.2)) := by
  induction l1 with
  | nil => rfl
  | cons a rest ih =>
    have ha : raises a = false := h a (by simp)
    have hrest : ∀ e ∈ rest, raises e = false := fun e he => h e (by simp [he])
    simp [drainRev, ha, ih hrest]

theorem drainRev_partition {α : Type} (raises : α → Bool) (l : List α) :
    (drainRev raises l).1 ++ (drainRev raises l).2.1 = l := by
  induction l with
  | nil => rfl
  | cons a rest ih =>
    by_cases ha : raises a = true
    · simp [drainRev, ha]
    · simp only [Bool.not_eq_true] at ha
      simp [drainRev, ha, ih]

theorem drainRev_no_err {α : Type} (raises : α → Bool) (l : List α)
    (h : (drainRev raises l).2.2 = false) : (drainRev raises l).2.1 = [] := by
  induction l with
  | nil => rfl
  | cons a rest ih =>
    by_cases ha : raises a = true
    · simp [drainRev, ha] at h
    · simp only [Bool.not_eq_true] at ha
      simp only [drainRev, ha, Bool.false_eq_true, if_false] at h ⊢
      exact ih h

/-- C1: for every sequence of N steps registered in order via `add_step`,
`do_rollback` (no step raising) invokes exactly the reverse of the
registration order, each entry once with its captured positional and
keyword arguments, and drains the list. -/
theorem do_rollback_lifo (raises : StepEntry → Bool) (entries : List StepEntry)
    (h : ∀ e ∈ entries, raises e = false) :
    do_rollback raises
        (entries.foldl (fun r e => add_step r e.cb e.args e.kwargs) ⟨[]⟩) =
      (entries.reverse, ⟨[]⟩, false) := by
  have hfold : ∀ (l : List StepEntry) (r : RollbackState),
      (l.foldl (fun r e => add_step r e.cb e.args e.kwargs) r).steps
        = r.steps ++ l := by
    intro l
    induction l with
    | nil => intro r; simp
    | cons a rest ih =>
      intro r
      rw [List.foldl_cons, ih]
      simp [add_step]
  have hrev : ∀ e ∈ entries.reverse, raises e = false := by
    intro e he
    exact h e (List.mem_reverse.mp he)
  simp [do_rollback, hfold entries ⟨[]⟩, drainRev_no_raise raises _ hrev]

/-- Witness for C1 at three concrete steps carrying arguments 0, 1, 2. -/
theorem do_rollback_lifo_witness :
    do_rollback (fun _ => false)
        (([⟨0, [0], []⟩, ⟨0, [1], []⟩, ⟨0, [2], []⟩] : List StepEntry).foldl
          (fun r e => add_step r e.cb e.args e.kwargs) ⟨[]⟩) =
      ([⟨0, [2], []⟩, ⟨0, [1], []⟩, ⟨0, [0], []⟩], ⟨[]⟩, false) :=
  do_rollback_lifo (fun _ => false) _ (by decide)

/-- C5: if a step invoked during `do_rollback` raises, the exception
escapes immediately: steps popped before it were invoked once each in LIFO
order, the raising step was invoked once, no earlier-registered step was
invoked, every not-yet-popped step remains in `steps`, and nothing is
retried. -/
theorem do_rollback_step_raises (raises : StepEntry → Bool)
    (pre post : List StepEntry) (bad : StepEntry)
    (hbad : raises bad = true) (hpost : ∀ e ∈ post, raises e = false) :
    do_rollback raises ⟨pre ++ bad :: post⟩ =
      (post.reverse ++ [bad], ⟨pre⟩, true) := by
  have hrev : ∀ e ∈ post.reverse, raises e = false := by
    intro e he
    exact hpost e (List.mem_reverse.mp he)
  simp [do_rollback, drainRev_append_no_raise raises post.reverse _ hrev,
    drainRev, hbad]

/-- Witness for C5: steps with callbacks 0, 1, 2 where callback 1 raises. -/
theorem do_rollback_step_raises_witness :
    raises1 (⟨1, [], []⟩ : StepEntry) = true ∧
    do_rollback raises1 ⟨[⟨0, [], []⟩, ⟨1, [], []⟩, ⟨2, [], []⟩]⟩ =
      ([⟨2, [], []⟩, ⟨1, [], []⟩], ⟨[⟨0, [], []⟩]⟩, true) :=
  ⟨rfl, do_rollback_step_raises raises1 [⟨0, [], []⟩] [⟨2, [], []⟩]
    ⟨1, [], []⟩ rfl (by decide)⟩

/-- C8: `do_rollback` with zero steps pending invokes nothing, raises
nothing, leaves `steps` empty, and may be called again with the same
outcome. -/
theorem do_rollback_empty_noop (raises : StepEntry → Bool) :
    do_rollback raises ⟨[]⟩ = ([], ⟨[]⟩, false) ∧
    do_rollback raises (do_rollback raises ⟨[]⟩).2.1 = ([], ⟨[]⟩, false) :=
  ⟨rfl, rfl⟩

/-- C9: `clear_steps` empties the step list, is idempotent, leaves the
invocation log of a session untouched (executes nothing), and a
`do_rollback` right after it invokes nothing. -/
theorem clear_steps_spec (raises : StepEntry → Bool) (r : RollbackState)
    (s : RunState) :
    (clear_steps r).steps = [] ∧
    clear_steps (clear_steps r) = clear_steps r ∧
    (runOp raises s Op.clear).log = s.log ∧
    do_rollback raises (clear_steps r) = ([], ⟨[]⟩, false) :=
  ⟨rfl, rfl, rfl, rfl⟩

/-- C2: on scope exit, rollback is triggered if and only if
`(error and on_error) or (on_success and not error)`; under the default
configuration `(on_error := false, on_success := false, raise_error := true)`
no rollback fires and the suppression decision is false, so any original
exception propagates. -/
theorem handle_exit_policy (cfg : RollbackCfg) (selfId : Nat)
    (loopRunning : Bool) (ty v : Option Nat) (tb : Option Traceback) :
    ((handle_exit cfg selfId loopRunning ty v tb).action ≠
        RollbackAction.nothing ↔
      (had_error tb && cfg.on_error || cfg.on_success && !had_error tb)
        = true) ∧
    (handle_exit ⟨false, false, true⟩ selfId loopRunning ty v tb).action =
      RollbackAction.nothing ∧
    (handle_exit ⟨false, false, true⟩ selfId loopRunning ty v tb).suppress =
      false := by
  refine ⟨?_, ?_, ?_⟩
  · by_cases hc : (had_error tb && cfg.on_error ||
        cfg.on_success && !had_error tb) = true
    · cases loopRunning <;> simp [handle_exit, hc]
    · simp [handle_exit, hc]
  · simp [handle_exit]
  · simp [handle_exit]

/-- C6 counterexample: a trio whose exception value is non-null but whose
traceback is null.  The source computes the error flag from the traceback,
so the flag is false and even `on_error := true` triggers no rollback,
contradicting the claim that the flag is true exactly when the value
component is non-null. -/
theorem had_error_value_counterexample :
    (some 7 : Option Nat) ≠ none ∧
    had_error (none : Option Traceback) = false ∧
    (handle_exit ⟨true, false, true⟩ 0 false none (some 7) none).action =
      RollbackAction.nothing :=
  ⟨by decide, rfl, rfl⟩

/-- C6 amended: `hadError` is computed from the traceback argument alone —
it is true exactly when the traceback component is non-null, the exception
type and value arguments are ignored by the whole exit handler, and the
flag drives the rollback-policy decision. -/
theorem had_error_from_traceback (cfg : RollbackCfg) (selfId : Nat)
    (loopRunning : Bool) (ty1 ty2 v1 v2 : Option Nat)
    (tb : Option Traceback) :
    handle_exit cfg selfId loopRunning ty1 v1 tb =
      handle_exit cfg selfId loopRunning ty2 v2 tb ∧
    (had_error tb = true ↔ tb ≠ none) ∧
    ((handle_exit cfg selfId loopRunning ty1 v1 tb).action ≠
        RollbackAction.nothing ↔
      (had_error tb && cfg.on_error || cfg.on_success && !had_error tb)
        = true) := by
  refine ⟨rfl, by simp [had_error, Option.isSome_iff_ne_none], ?_⟩
  by_cases hc : (had_error tb && cfg.on_error ||
      cfg.on_success && !had_error tb) = true
  · cases loopRunning <;> simp [handle_exit, hc]
  · simp [handle_exit, hc]

/-- C3 counterexample: the guarded block raised, `raise_error = false`,
and the escaping traceback consists of a single frame that belongs to this
instance's `do_rollback` — so a matching frame appears in the trace — yet
the returned suppression decision is `true` (the exception is swallowed),
because the scan never looks at the outermost frame.  This refutes the
claim's "if such a frame is found anywhere in the trace, the exception
propagates". -/
theorem handle_exit_first_frame_counterexample :
    ([⟨some 0, "do_rollback"⟩] : List Frame).any (frame_matches 0 "do_rollback")
      = true ∧
    (handle_exit ⟨false, false, false⟩ 0 false none none
        (some ([⟨some 0, "do_rollback"⟩] : List Frame))).suppress = true :=
  ⟨by decide, by decide⟩

/-- C3 amended: when the guarded block raised and `raise_error = false`,
the suppression decision is `true` if and only if no frame of this
instance's `do_rollback` appears among the frames after the outermost
frame of the traceback (the outermost frame is never inspected). -/
theorem handle_exit_suppression (cfg : RollbackCfg) (selfId : Nat)
    (loopRunning : Bool) (ty v : Option Nat) (t : List Frame)
    (h : cfg.raise_error = false) :
    (handle_exit cfg selfId loopRunning ty v (some t)).suppress = true ↔
      ∀ f ∈ t.tail, frame_matches selfId "do_rollback" f = false := by
  have htail : frames_of t = t.tail := by
    cases t <;> rfl
  simp [handle_exit, had_error, h, method_in_traceback, htail,
    List.any_eq_true]

/-- Witness for C3 amended: a two-frame traceback whose second frame is a
foreign method, under `raise_error = false`. -/
theorem handle_exit_suppression_witness :
    RollbackCfg.raise_error ⟨true, false, false⟩ = false ∧
    ((handle_exit ⟨true, false, false⟩ 0 false none none
        (some ([⟨some 0, "do_rollback"⟩, ⟨some 1, "other"⟩] : List Frame))).suppress
      = true ↔
      ∀ f ∈ ([⟨some 0, "do_rollback"⟩, ⟨some 1, "other"⟩] : List Frame).tail,
        frame_matches 0 "do_rollback" f = false) :=
  ⟨rfl, handle_exit_suppression ⟨true, false, false⟩ 0 false none none
    [⟨some 0, "do_rollback"⟩, ⟨some 1, "other"⟩] rfl⟩

/-- C10: the frame scan never produces the outermost frame of the
traceback it is given, so on a one-frame traceback
`_method_in_traceback` returns false for every method name — even when
that single frame is this instance's `do_rollback` — and the suppression
override cannot fire there: with `raise_error = false` the decision stays
`true`. -/
theorem method_in_traceback_skips_first (selfId : Nat) (name : String)
    (f : Frame) (tb : Traceback) (loopRunning : Bool) (ty v : Option Nat) :
    frames_of tb = List.tail tb ∧
    method_in_traceback selfId name [f] = false ∧
    (handle_exit ⟨false, false, false⟩ selfId loopRunning ty v
        (some ([f] : List Frame))).suppress = true := by
  refine ⟨?_, rfl, ?_⟩
  · cases tb <;> rfl
  · simp [handle_exit, had_error, method_in_traceback, frames_of]

/-- C4: `__aexit__` awaits the result of the plain (non-coroutine) method
`_handle_exit`, so instead of awaiting rollback and returning the
suppression decision it raises `TypeError`; moreover the policy logic it
runs schedules rollback via `create_task` (fire and forget, the event
loop being active inside `__aexit__`), not by awaiting it.  Shown at the
concrete input `on_success := true` with a normal (exception-free) exit:
the configuration of the repository's own async test. -/
theorem aexit_await_type_mismatch :
    aexit ⟨false, true, true⟩ 0 none none none =
      Except.error "TypeError: object bool cannot be used in await expression" ∧
    (handle_exit ⟨false, true, true⟩ 0 true none none none).action =
      RollbackAction.createTask :=
  ⟨rfl, rfl⟩

theorem runOp_rollback_perm (raises : StepEntry → Bool) (s : RunState) :
    (tagsOf (runOp raises s Op.rollback)).Perm (tagsOf s) := by
  have hpart := drainRev_partition (fun te : Nat × StepEntry => raises te.2)
    s.steps.reverse
  set d := drainRev (fun te : Nat × StepEntry => raises te.2) s.steps.reverse
    with hd
  show ((s.log ++ d.1).map Prod.fst ++ (d.2.1.reverse).map Prod.fst).Perm
    (s.log.map Prod.fst ++ s.steps.map Prod.fst)
  have p1 : List.Perm ((d.2.1.reverse).map Prod.fst) (d.2.1.map Prod.fst) :=
    (List.reverse_perm _).map Prod.fst
  have p2 : List.Perm (d.1.map Prod.fst ++ (d.2.1.reverse).map Prod.fst)
      (s.steps.map Prod.fst) := by
    have q1 : List.Perm (d.1.map Prod.fst ++ (d.2.1.reverse).map Prod.fst)
        (d.1.map Prod.fst ++ d.2.1.map Prod.fst) :=
      List.Perm.append_left _ p1
    have q2 : d.1.map Prod.fst ++ d.2.1.map Prod.fst
        = (s.steps.reverse).map Prod.fst := by
      rw [← List.map_append, hpart]
    have q3 : List.Perm ((s.steps.reverse).map Prod.fst)
        (s.steps.map Prod.fst) :=
      (List.reverse_perm _).map Prod.fst
    exact (q2 ▸ q1).trans q3
  rw [List.map_append, List.append_assoc]
  exact List.Perm.append_left _ p2

theorem runOp_invariant (raises : StepEntry → Bool) (s : RunState) (op : Op)
    (hn : (tagsOf s).Nodup) (hb : ∀ t ∈ tagsOf s, t < s.next) :
    (tagsOf (runOp raises s op)).Nodup ∧
      ∀ t ∈ tagsOf (runOp raises s op), t < (runOp raises s op).next := by
  cases op with
  | add e =>
    have hne : s.next ∉ tagsOf s := fun hmem =>
      lt_irrefl s.next (hb s.next hmem)
    have hEq : tagsOf (runOp raises s (Op.add e))
        = (s.log.map Prod.fst ++ s.steps.map Prod.fst) ++ [s.next] := by
      simp [tagsOf, runOp, List.append_assoc]
    constructor
    · rw [hEq, List.nodup_append]
      refine ⟨hn, List.nodup_singleton _, ?_⟩
      intro a ha hmem
      rw [List.mem_singleton] at hmem
      exact hne (hmem ▸ ha)
    · intro t ht
      rw [hEq] at ht
      show t < s.next + 1
      rcases List.mem_append.mp ht with h1 | h2
      · exact Nat.lt_succ_of_lt (hb t h1)
      · rw [List.mem_singleton] at h2
        exact h2 ▸ Nat.lt_succ_self s.next
  | clear =>
    have hEq : tagsOf (runOp raises s Op.clear) = s.log.map Prod.fst := by
      simp [tagsOf, runOp]
    constructor
    · rw [hEq]
      exact (List.nodup_append.mp hn).1
    · intro t ht
      rw [hEq] at ht
      exact hb t (List.mem_append.mpr (Or.inl ht))
  | rollback =>
    have hperm := runOp_rollback_perm raises s
    exact ⟨hperm.nodup_iff.mpr hn, fun t ht => hb t (hperm.mem_iff.mp ht)⟩

theorem runOps_invariant (raises : StepEntry → Bool) (ops : List Op) :
    (tagsOf (runOps raises ops)).Nodup ∧
      ∀ t ∈ tagsOf (runOps raises ops), t < (runOps raises ops).next := by
  have main : ∀ (l : List Op) (s : RunState),
      (tagsOf s).Nodup → (∀ t ∈ tagsOf s, t < s.next) →
      (tagsOf (l.foldl (runOp raises) s)).Nodup ∧
        ∀ t ∈ tagsOf (l.foldl (runOp raises) s),
          t < (l.foldl (runOp raises) s).next := by
    intro l
    induction l with
    | nil => intro s h1 h2; exact ⟨h1, h2⟩
    | cons op rest ih =>
      intro s h1 h2
      have h := runOp_invariant raises s op h1 h2
      exact ih (runOp raises s op) h.1 h.2
  exact main ops ⟨[], 0, []⟩ List.nodup_nil (by intro t ht; cases ht)

/-- C7: across any session of `add_step`, `clear_steps` and `do_rollback`
calls (including drains aborted by a raising step), each registration is
executed at most once — the invocation log never repeats a registration
tag — and a `do_rollback` that completes without a step raising leaves the
steps list empty. -/
theorem steps_at_most_once (raises : StepEntry → Bool) (ops : List Op) :
    ((runOps raises ops).log.map Prod.fst).Nodup ∧
    ∀ (r : RollbackState) (inv : List StepEntry) (r2 : RollbackState),
      do_rollback raises r = (inv, r2, false) → r2.steps = [] := by
  constructor
  · exact (List.nodup_append.mp (runOps_invariant raises ops).1).1
  · intro r inv r2 heq
    have h2 : (drainRev raises r.steps.reverse).2.2 = false := by
      have := congrArg (fun p => p.2.2) heq
      simpa [do_rollback] using this
    have h1 := drainRev_no_err raises r.steps.reverse h2
    have h3 : (⟨(drainRev raises r.steps.reverse).2.1.reverse⟩ : RollbackState)
        = r2 := by
      have := congrArg (fun p => p.2.1) heq
      simpa [do_rollback] using this
    rw [← h3]
    show (drainRev raises r.steps.reverse).2.1.reverse = []
    rw [h1]
    rfl

/-- Witness for C7: a session registering one step then rolling back, and
a concrete completed drain. -/
theorem steps_at_most_once_witness :
    ((runOps raises1 [Op.add ⟨0, [], []⟩, Op.rollback]).log.map
      Prod.fst).Nodup ∧
    do_rollback raises1 ⟨[⟨0, [], []⟩]⟩ = ([⟨0, [], []⟩], ⟨[]⟩, false) ∧
    (⟨[]⟩ : RollbackState).steps = [] :=
  ⟨(steps_at_most_once raises1 [Op.add ⟨0, [], []⟩, Op.rollback]).1,
   by decide,
   (steps_at_most_once raises1 []).2 ⟨[⟨0, [], []⟩]⟩ [⟨0, [], []⟩] ⟨[]⟩
     (by decide)⟩
